import Mathlib

/-!
# Template composition engine (`go-template-engine/engine/engine.go`)

A shallow embedding of `Engine.ParseFS`, `New` and `Engine.ExecuteTemplate`.

* The Go standard library is not part of the repository.  `filepath.Base`,
  `filepath.Match`, the template parser (`parse.Parse`), `parse.IsEmptyTree`,
  template execution and `os.ReadFile` are fields of `Env`.  The template set
  of `html/template` is embedded with its two layers: the set of the
  `html/template` name space, in which `New` registers a name before anything
  is parsed, and the table of parsed trees of the underlying `text/template`,
  which `Parse` fills with the top-level tree of the text and with every
  template the text defines, and from which it refreshes the first.
* `fs.WalkDir` is represented by the sequence of callback invocations it makes,
  in its (lexical, pre-order) walk order.  The callback of `ParseFS` never
  returns `fs.SkipDir` or `fs.SkipAll` of its own, so the walk visits that
  sequence in order and stops at the first invocation that returns an error.
* Pointers become explicit state: the variable `t` of `ParseFS` is threaded
  through the walk and handed back next to the returned value, so what the
  call did to the set behind the caller's `t` is visible.  A `*tpl.Template` is
  taken to be the template its set holds under its name, as it is for every
  handle `New`, `t.New`, `Clone` and `Parse` return.
-/

namespace TemplateEngine

/-- Go `error` values the engine can return. -/
inductive Error where
  /-- The error `errors.New("empty template")` of `ParseFS`. -/
  | emptyTemplate
  /-- The error `errors.New("empty layout")` of `ExecuteTemplate`. -/
  | emptyLayout
  /-- An error produced outside the engine (walk, match, read, parse, execute). -/
  | lib (msg : String)
  deriving DecidableEq, Repr

/-- The set of an `html/template` name space: every registered name with the
tree of its template, `none` while the template has no tree (registered by
`New` and not parsed). -/
abbrev NameSpace (β : Type) := List (String × Option β)

/-- The table of parsed templates of the underlying `text/template`: name and
tree. -/
abbrev TextSet (β : Type) := List (String × β)

/-- Assignment `set[name] = ...` in the map of a name space. -/
def NameSpace.insert {β : Type} (set : NameSpace β) (name : String) (body : Option β) :
    NameSpace β :=
  (name, body) :: set.filter (fun p => p.1 != name)

/-- The names of a set: `Templates()` followed by `Name()`. -/
def NameSpace.names {β : Type} (set : NameSpace β) : List String :=
  set.map Prod.fst

/-- The entry of a name in a set; `none` when the name is not registered. -/
def NameSpace.get {β : Type} (set : NameSpace β) (name : String) : Option (Option β) :=
  List.lookup name set

/-- A `*tpl.Template`: a named handle into a template set.  `name` is what
`Name()` returns (the primary name when the handle is the one a composition
returns), `set` the set of its name space and `text` the parsed trees of the
underlying `text/template`. -/
structure Template (β : Type) where
  name : String
  set : NameSpace β
  text : TextSet β

/-- The library call `tpl.New(name)`: a fresh set whose only template is `name`,
without a tree. -/
def tplNew {β : Type} (name : String) : Template β :=
  ⟨name, [(name, none)], []⟩

/-- The library call `t.New(name)`.  The first component is the returned handle:
it is named `name` and lives in the name space of `t`, where a template without
a tree is registered under `name` in place of any template of that name.  The
second component gives `t` after the call as a function of the later state of
the returned handle: `t` keeps sharing that name space, except when `name` is
the name of `t` itself, where the library resets the replaced template, that
is `t`, to an empty template in a fresh name space of its own. -/
def Template.New {β : Type} (t : Template β) (name : String) :
    Template β × (Template β → Template β) :=
  (⟨name, t.set.insert name none, t.text⟩,
    if name = t.name then fun _ => tplNew t.name
    else fun tmpl => ⟨t.name, tmpl.set, tmpl.text⟩)

/-- The library call `t.Clone()`: an independent copy of the set with the same
primary name. -/
def Template.Clone {β : Type} (t : Template β) : Except Error (Template β) :=
  .ok ⟨t.name, t.set, t.text⟩

/-- Name resolution against the set of a handle: the tree of the template
registered under the name; a template without a tree does not resolve. -/
def Template.Lookup {β : Type} (t : Template β) (name : String) : Option β :=
  match t.set.get name with
  | some (some b) => some b
  | _ => none

/-- Equality of Go results `(value, error)` is decidable when that of the
values is. -/
instance instDecidableEqExcept {α : Type} [DecidableEq α] : DecidableEq (Except Error α)
  | .ok a, .ok b => if h : a = b then isTrue (by rw [h]) else isFalse (by intro h1; cases h1; exact h rfl)
  | .error a, .error b =>
    if h : a = b then isTrue (by rw [h]) else isFalse (by intro h1; cases h1; exact h rfl)
  | .ok _, .error _ => isFalse (by intro h; cases h)
  | .error _, .ok _ => isFalse (by intro h; cases h)

/-- One invocation of the `fs.WalkDir` callback: `path`, `d.IsDir()`, `err`. -/
structure DirEntry where
  path : String
  isDir : Bool
  err : Option Error
  deriving DecidableEq, Repr

/-- An `fs.FS` as the engine uses it: the callback invocations of
`fs.WalkDir(fsys, ".", fn)` in walk order, and `fs.ReadFile(fsys, path)`. -/
structure FS where
  walk : List DirEntry
  readFile : String → Except Error String

/-- The library and operating-system functions the engine calls.
`Parse name text` is `parse.Parse` run on the text of a template named `name`:
the trees it yields by name, the top-level tree under `name` and one tree for
each template the text defines.  `IsEmptyTree` is `parse.IsEmptyTree`.
`Execute resolve name data` is template execution, which resolves fragment
names through `resolve` and returns the bytes it wrote together with its error,
if any. -/
structure Env (β δ : Type) where
  Base : String → String
  Match : String → String → Except Error Bool
  Parse : String → String → Except Error (List (String × β))
  IsEmptyTree : β → Bool
  Execute : (String → Option β) → String → δ → String × Option Error
  ReadFile : String → Except Error String

/-- The library call `AddParseTree(name, tree)` of `text/template`: the tree is
installed under its name, except that an empty tree does not replace a template
that already exists. -/
def textAdd {β δ : Type} (E : Env β δ) (text : TextSet β) (name : String) (tree : β) :
    TextSet β :=
  if (List.lookup name text).isSome && E.IsEmptyTree tree then text
  else (name, tree) :: text.filter (fun p => p.1 != name)

/-- The loop of `text/template` `Parse` over the parsed trees. -/
def addTrees {β δ : Type} (E : Env β δ) (text : TextSet β) (trees : List (String × β)) :
    TextSet β :=
  trees.foldl (fun acc p => textAdd E acc p.1 p.2) text

/-- The loop that ends `html/template` `Parse`: every template of the
underlying `text/template` is registered in the set, if it is not yet, and
given its tree. -/
def syncSet {β : Type} (set : NameSpace β) (text : TextSet β) : NameSpace β :=
  text.foldr (fun p acc => acc.insert p.1 (some p.2)) set

/-- The library call `tmpl.Parse(s)`: on a parse error nothing changes;
otherwise the trees of the text, the top-level one and those of the templates
it defines, are added to the name space of `tmpl`. -/
def Template.Parse {β δ : Type} (E : Env β δ) (tmpl : Template β) (s : String) :
    Except Error (Template β) :=
  match E.Parse tmpl.name s with
  | .error e => .error e
  | .ok trees =>
    .ok ⟨tmpl.name, syncSet tmpl.set (addTrees E tmpl.text trees), addTrees E tmpl.text trees⟩

/-- The library call `t.ExecuteTemplate(w, name, data)`: the name is looked up
in the set of `t`; an unregistered name and a template without a tree are
errors before anything is written, otherwise the template is executed.  The
first component is the sink after the call. -/
def Template.ExecuteTemplate {β δ : Type} (E : Env β δ) (t : Template β) (w : String)
    (name : String) (data : δ) : String × Option Error :=
  match t.set.get name with
  | none => (w, some (Error.lib ("html/template: " ++ name ++ " is undefined")))
  | some none => (w, some (Error.lib ("html/template: " ++ name ++ " is an incomplete template")))
  | some (some _) =>
    let r := E.Execute t.Lookup name data
    (w ++ r.1, r.2)

/-- The engine: `type Engine struct { layout *tpl.Template }`. -/
structure Engine (β : Type) where
  layout : Option (Template β)

/-- The method `Engine.Layout` (engine.go lines 26-28). -/
def Engine.Layout {β : Type} (e : Engine β) : Option (Template β) :=
  e.layout

/-- The pattern loop of the callback (engine.go lines 38-48): the patterns are
tried in order, a pattern error aborts, the first match ends the loop. -/
def matchLoop {β δ : Type} (E : Env β δ) (path : String) :
    List String → Except Error Bool
  | [] => .ok false
  | pattern :: rest =>
    match E.Match pattern (E.Base path) with
    | .error e => .error e
    | .ok true => .ok true
    | .ok false => matchLoop E path rest

/-- The callback passed to `fs.WalkDir` (engine.go lines 31-78).  The first
component is the captured variable `t` after the invocation (the set behind it
included), the second the returned error (`none` is `nil`).  `h` is the pair of
`tmpl` and of `t` as it follows the state of `tmpl`: the same template when
`tmpl = t`, and what `t.New(path)` gives otherwise. -/
def walkFn {β δ : Type} (E : Env β δ) (fsys : FS) (patterns : List String)
    (t : Option (Template β)) (d : DirEntry) : Option (Template β) × Option Error :=
  match d.err with
  | some e => (t, some e)
  | none =>
    if d.isDir then (t, none)
    else
      match matchLoop E d.path patterns with
      | .error e => (t, some e)
      | .ok false => (t, none)
      | .ok true =>
        match fsys.readFile d.path with
        | .error e => (t, some e)
        | .ok s =>
          let t1 : Template β := match t with
            | none => tplNew d.path
            | some t0 => t0
          let h : Template β × (Template β → Template β) :=
            if d.path = t1.name then (t1, fun tmpl => tmpl) else t1.New d.path
          match h.1.Parse E s with
          | .error e => (some (h.2 h.1), some e)
          | .ok tmpl1 => (some (h.2 tmpl1), none)

/-- The walk of `fs.WalkDir`: the callback runs on each invocation in order and
the first error it returns ends the walk. -/
def walkDir {β : Type} (fn : Option (Template β) → DirEntry → Option (Template β) × Option Error) :
    List DirEntry → Option (Template β) → Option (Template β) × Option Error
  | [], t => (t, none)
  | d :: rest, t =>
    match fn t d with
    | (t1, some e) => (t1, some e)
    | (t1, none) => walkDir fn rest t1

/-- What a call of `ParseFS` leaves behind: the returned pair as `ret`, and in
`t` the caller's template after the call (`none` when `nil` was passed and no
template was created). -/
structure ParseResult (β : Type) where
  ret : Except Error (Template β)
  t : Option (Template β)

/-- The method `Engine.ParseFS` (engine.go lines 30-86): the walk, then the two
checks after it. -/
def ParseFS {β δ : Type} (E : Env β δ) (t : Option (Template β)) (fsys : FS)
    (patterns : List String) : ParseResult β :=
  match walkDir (walkFn E fsys patterns) fsys.walk t with
  | (t1, some e) => ⟨.error e, t1⟩
  | (none, none) => ⟨.error Error.emptyTemplate, none⟩
  | (some t1, none) => ⟨.ok t1, some t1⟩

/-- The constructor `New` (engine.go lines 16-24). -/
def New {β δ : Type} (E : Env β δ) (layoutFS : FS) (layoutPatterns : List String) :
    Except Error (Engine β) :=
  match (ParseFS E none layoutFS layoutPatterns).ret with
  | .error e => .error e
  | .ok l => .ok ⟨some l⟩

/-- The outcome of `Engine.ExecuteTemplate`: the engine and the sink after the
call, and the returned error. -/
structure ExecResult (β : Type) where
  engine : Engine β
  sink : String
  err : Option Error

/-- The method `Engine.ExecuteTemplate` (engine.go lines 88-108); `w` is what the sink
holds before the call.  `h` is the pair `t.New(templatePath)` gives: the new
handle, and the clone `t` as it follows the state of that handle. -/
def ExecuteTemplate {β δ : Type} (E : Env β δ) (e : Engine β) (w : String)
    (templatePath : String) (data : δ) : ExecResult β :=
  match e.layout with
  | none => ⟨e, w, some Error.emptyLayout⟩
  | some l =>
    match l.Clone with
    | .error err => ⟨e, w, some err⟩
    | .ok t =>
      match E.ReadFile templatePath with
      | .error err => ⟨e, w, some err⟩
      | .ok s =>
        let h := t.New templatePath
        match h.1.Parse E s with
        | .error err => ⟨e, w, some err⟩
        | .ok tmpl1 =>
          let r := (h.2 tmpl1).ExecuteTemplate E w templatePath data
          ⟨e, r.1, r.2⟩

/-! ## The notions the properties are stated with -/

/-- A path matches a pattern list when `filepath.Match` reports a match of its
base name for at least one pattern. -/
def matchesAny {β δ : Type} (E : Env β δ) (patterns : List String) (path : String) : Bool :=
  patterns.any (fun pattern =>
    match E.Match pattern (E.Base path) with
    | .ok true => true
    | _ => false)

/-- A walk entry is selected when it is not a directory and its path matches
the pattern list. -/
def selected {β δ : Type} (E : Env β δ) (patterns : List String) (d : DirEntry) : Bool :=
  !d.isDir && matchesAny E patterns d.path

/-- The paths of the selected entries of a file source, in walk order. -/
def matchedPaths {β δ : Type} (E : Env β δ) (fsys : FS) (patterns : List String) :
    List String :=
  (fsys.walk.filter (selected E patterns)).map DirEntry.path

/-- The names of the trees the parse of a file yields: its own name for the
top-level tree, and the names of the templates it defines; none when the file
cannot be read or parsed. -/
def treeNames {β δ : Type} (E : Env β δ) (fsys : FS) (d : DirEntry) : List String :=
  match fsys.readFile d.path with
  | .error _ => []
  | .ok s =>
    match E.Parse d.path s with
    | .error _ => []
    | .ok trees => trees.map Prod.fst

/-- The names of the trees the parses of the selected files yield. -/
def definedNames {β δ : Type} (E : Env β δ) (fsys : FS) (patterns : List String) :
    List String :=
  (fsys.walk.filter (selected E patterns)).flatMap (treeNames E fsys)

/-- A pattern list is well formed when `filepath.Match` reports no error for
any of its patterns, whatever the name. -/
def WellFormed {β δ : Type} (E : Env β δ) (patterns : List String) : Prop :=
  ∀ pattern ∈ patterns, ∀ name, ∃ b, E.Match pattern name = .ok b

/-- The set behind the variable `t` of `ParseFS`; no set while `t` is `nil`. -/
def setOf {β : Type} (t : Option (Template β)) : NameSpace β :=
  match t with
  | none => []
  | some t0 => t0.set

/-- The parsed trees behind the variable `t` of `ParseFS`. -/
def textOf {β : Type} (t : Option (Template β)) : TextSet β :=
  match t with
  | none => []
  | some t0 => t0.text

/-- A handle is registered when its set holds its name, as the set of every
handle the library returns does. -/
def Template.Registered {β : Type} (t : Template β) : Prop :=
  t.name ∈ t.set.names

/-- A set is in step with its parsed trees when every parsed template is in
the set with its tree, as it is after every `Parse` that succeeds. -/
def Template.Synced {β : Type} (t : Template β) : Prop :=
  ∀ n tree, List.lookup n t.text = some tree → t.set.get n = some (some tree)

/-- The name of the variable `t` of `ParseFS` once a file at `path` has been processed. -/
def nameOf {β : Type} (t : Option (Template β)) (path : String) : String :=
  match t with
  | none => path
  | some t0 => t0.name

/-- The set in which the callback of `ParseFS` parses the file at `path`: that
of `tpl.New(path)` when `t` is `nil`, that of `t` when `path` is the name of `t`,
and that of `t` after `t.New(path)` otherwise. -/
def baseSet {β : Type} (t : Option (Template β)) (path : String) : NameSpace β :=
  match t with
  | none => [(path, none)]
  | some t0 => if path = t0.name then t0.set else t0.set.insert path none

/-- The variable `t` of `ParseFS`, when set, is registered and every parsed
template is a name of its set. -/
def Inv {β : Type} (t : Option (Template β)) : Prop :=
  (∀ t0, t = some t0 → t0.Registered) ∧
    ∀ n ∈ (textOf t).map Prod.fst, n ∈ (setOf t).names

/-- The clone of the layout `l` in which `ExecuteTemplate` executes, once
`t.New(p)` has registered the page and `Parse` has added the trees of its
text; `p` is not the name of `l`. -/
def renderSet {β δ : Type} (E : Env β δ) (l : Template β) (p : String)
    (trees : List (String × β)) : Template β :=
  ⟨l.name, syncSet (l.set.insert p none) (addTrees E l.text trees), addTrees E l.text trees⟩

/-! ## A concrete environment, for evaluating the definitions -/

/-- The part of a slash-separated path after its last slash, as `filepath.Base`
returns it for a path that does not end in a slash. -/
def exBaseChars : List Char → List Char → List Char
  | acc, [] => acc
  | acc, c :: cs => if c = '/' then exBaseChars [] cs else exBaseChars (acc ++ [c]) cs

/-- See `exBaseChars`. -/
def exBase (path : String) : String :=
  String.mk (exBaseChars [] path.toList)

/-- The results of `filepath.Match` on the patterns used below: `*` matches
every base name, `*.html` and `*.xml` match the names with that ending, and `[`
(a character class that is never closed) is malformed, which `filepath.Match`
reports as `ErrBadPattern`; any other pattern is compared literally. -/
def exMatch (pattern name : String) : Except Error Bool :=
  if pattern = "[" then .error (Error.lib "syntax error in pattern")
  else if pattern = "*" then .ok true
  else if pattern = "*.html" then .ok (".html".toList.isSuffixOf name.toList)
  else if pattern = "*.xml" then .ok (".xml".toList.isSuffixOf name.toList)
  else .ok (decide (pattern = name))

/-- The template text that opens an action and never closes it; it does not
parse. -/
def exUnclosed : String :=
  "\x7b\x7b"

/-- The template text that defines the template `nav` with the body `N2`. -/
def exDefineNav : String :=
  "\x7b\x7bdefine \"nav\"\x7d\x7dN2\x7b\x7bend\x7d\x7d"

/-- The results of the template parser on the texts used below, a parsed tree
being written as its text: an unclosed action is a parse error, a text that
starts by defining `nav` yields the tree of `nav` and the rest as its top-level
tree, and any other text here is plain text, which is its own top-level
tree. -/
def exParse (name text : String) : Except Error (List (String × String)) :=
  if text = exUnclosed then .error (Error.lib ("template: " ++ name ++ ":1: unclosed action"))
  else if exDefineNav.toList.isPrefixOf text.toList then
    .ok [(name, String.mk (text.toList.drop exDefineNav.toList.length)), ("nav", "N2")]
  else .ok [(name, text)]

/-- The empty trees among those of `exParse`. -/
def exIsEmptyTree (tree : String) : Bool :=
  decide (tree = "")

/-- The template text that invokes the template `nav`. -/
def exInvokeNav : String :=
  "\x7b\x7btemplate \"nav\"\x7d\x7d"

/-- The results of template execution on the trees used below: a tree that ends
by invoking `nav` writes the text before the invocation and then the body
`nav` resolves to, and fails before writing anything when `nav` does not
resolve; any other tree here is plain text, which is written as it is. -/
def exExecute (resolve : String → Option String) (name : String) (_data : Unit) :
    String × Option Error :=
  match resolve name with
  | none => ("", some (Error.lib ("html/template: " ++ name ++ " is undefined")))
  | some b =>
    if exInvokeNav.toList.isSuffixOf b.toList then
      match resolve "nav" with
      | none => ("", some (Error.lib ("html/template:" ++ name ++ ": no such template nav")))
      | some n =>
        (String.mk (b.toList.take (b.toList.length - exInvokeNav.toList.length)) ++ n, none)
    else (b, none)

/-- The files of the concrete file systems, by path. -/
def exFiles (path : String) : Except Error String :=
  if path = "a.html" then .ok "A"
  else if path = "b.txt" then .ok "B"
  else if path = "c.html" then .ok "C"
  else if path = "sub/d.html" then .ok "D"
  else if path = "index.html" then .ok "NEW"
  else if path = "bad.html" then .ok exUnclosed
  else if path = "page.html" then .ok "P"
  else if path = "navpage.html" then .ok (exDefineNav ++ "P" ++ exInvokeNav)
  else .error (Error.lib ("open " ++ path ++ ": file does not exist"))

/-- Files `a.html`, which defines `nav` before its text `A`, and `index.html`,
which is empty. -/
def exFiles2 (path : String) : Except Error String :=
  if path = "a.html" then .ok (exDefineNav ++ "A")
  else if path = "index.html" then .ok ""
  else .error (Error.lib ("open " ++ path ++ ": file does not exist"))

/-- The concrete environment. -/
def exEnv : Env String Unit :=
  ⟨exBase, exMatch, exParse, exIsEmptyTree, exExecute, exFiles⟩

/-- A file source holding `a.html`, `b.txt`, `c.html` and `sub/d.html`. -/
def exFS : FS :=
  ⟨[⟨".", true, none⟩, ⟨"a.html", false, none⟩, ⟨"b.txt", false, none⟩,
    ⟨"c.html", false, none⟩, ⟨"sub", true, none⟩, ⟨"sub/d.html", false, none⟩], exFiles⟩

/-- A file source holding `a.html`, `bad.html` (which does not parse) and
`c.html`. -/
def exBadFS : FS :=
  ⟨[⟨".", true, none⟩, ⟨"a.html", false, none⟩, ⟨"bad.html", false, none⟩,
    ⟨"c.html", false, none⟩], exFiles⟩

/-- A file source holding `a.html` and `index.html`. -/
def exIndexFS : FS :=
  ⟨[⟨".", true, none⟩, ⟨"a.html", false, none⟩, ⟨"index.html", false, none⟩], exFiles⟩

/-- A file source holding only `a.html`, which defines `nav`. -/
def exDefineFS : FS :=
  ⟨[⟨".", true, none⟩, ⟨"a.html", false, none⟩], exFiles2⟩

/-- A file source holding only `index.html`, which is empty. -/
def exEmptyIndexFS : FS :=
  ⟨[⟨".", true, none⟩, ⟨"index.html", false, none⟩], exFiles2⟩

/-- The set `New` composes from `exFS` with the pattern `*.html`. -/
def exComposed : Template String :=
  ⟨"a.html", [("sub/d.html", some "D"), ("c.html", some "C"), ("a.html", some "A")],
    [("sub/d.html", "D"), ("c.html", "C"), ("a.html", "A")]⟩

/-- The set `New` composes from `exDefineFS` with the pattern `*.html`. -/
def exDefined : Template String :=
  ⟨"a.html", [("nav", some "N2"), ("a.html", some "A")], [("nav", "N2"), ("a.html", "A")]⟩

/-- The set `exLayout` after `ParseFS` failed on `exBadFS` with the pattern
`*.html`. -/
def exLeftover : Template String :=
  ⟨"index.html", [("bad.html", none), ("a.html", some "A"), ("index.html", some "OLD"),
    ("nav", some "N")], [("a.html", "A"), ("index.html", "OLD"), ("nav", "N")]⟩

/-- An existing set with primary name `index.html` and a fragment `nav`. -/
def exLayout : Template String :=
  ⟨"index.html", [("index.html", some "OLD"), ("nav", some "N")],
    [("index.html", "OLD"), ("nav", "N")]⟩

/-! ## Template sets -/

theorem mem_names_insert {β : Type} (set : NameSpace β) (name : String) (body : Option β)
    (n : String) : n ∈ (set.insert name body).names ↔ n = name ∨ n ∈ set.names := by
  simp only [NameSpace.insert, NameSpace.names, List.map_cons, List.mem_cons, List.mem_map,
    List.mem_filter]
  constructor
  · rintro (h | ⟨a, ⟨ha, _⟩, rfl⟩)
    · exact Or.inl h
    · exact Or.inr ⟨a, ha, rfl⟩
  · rintro (h | ⟨a, ha, rfl⟩)
    · exact Or.inl h
    · by_cases hn : a.1 = name
      · exact Or.inl hn
      · exact Or.inr ⟨a, ⟨ha, by simpa using hn⟩, rfl⟩

theorem lookup_filter_ne {γ : Type} (l : List (String × γ)) (name n : String) (h : n ≠ name) :
    List.lookup n (l.filter (fun p => p.1 != name)) = List.lookup n l := by
  induction l with
  | nil => rfl
  | cons a rest ih =>
    obtain ⟨k, v⟩ := a
    by_cases hk : k = name
    · subst hk
      have hnk : (n == k) = false := by simpa using h
      simp [List.filter_cons, List.lookup_cons, hnk, ih]
    · have hk1 : (k != name) = true := by simpa using hk
      simp only [List.filter_cons, hk1, if_true, List.lookup_cons, ih]

theorem get_insert_self {β : Type} (set : NameSpace β) (name : String) (body : Option β) :
    (set.insert name body).get name = some body := by
  simp [NameSpace.insert, NameSpace.get, List.lookup_cons]

theorem get_insert_ne {β : Type} (set : NameSpace β) (name : String) (body : Option β)
    (n : String) (h : n ≠ name) : (set.insert name body).get n = set.get n := by
  have hn : (n == name) = false := by simpa using h
  simp only [NameSpace.insert, NameSpace.get, List.lookup_cons, hn]
  exact lookup_filter_ne set name n h

theorem names_insert_nodup {β : Type} (set : NameSpace β) (name : String) (body : Option β)
    (h : set.names.Nodup) : (set.insert name body).names.Nodup := by
  simp only [NameSpace.insert, NameSpace.names, List.map_cons, List.nodup_cons, List.mem_map,
    List.mem_filter]
  refine ⟨?_, ?_⟩
  · rintro ⟨a, ⟨_, ha⟩, rfl⟩
    simp at ha
  · exact (List.filter_sublist set).map Prod.fst |>.nodup h

theorem lookup_isSome_iff {γ : Type} (l : List (String × γ)) (n : String) :
    (List.lookup n l).isSome = true ↔ n ∈ l.map Prod.fst := by
  induction l with
  | nil => simp
  | cons a rest ih =>
    obtain ⟨k, v⟩ := a
    by_cases hk : n = k
    · subst hk
      simp [List.lookup_cons]
    · have hnk : (n == k) = false := by simpa using hk
      simp only [List.lookup_cons, hnk, ih, List.map_cons, List.mem_cons, hk, false_or]

theorem mem_of_lookup_eq_some {γ : Type} (l : List (String × γ)) (n : String) (v : γ)
    (h : List.lookup n l = some v) : (n, v) ∈ l := by
  induction l with
  | nil => simp at h
  | cons a rest ih =>
    obtain ⟨k, w⟩ := a
    by_cases hk : n = k
    · subst hk
      simp only [List.lookup_cons, beq_self_eq_true, Option.some.injEq] at h
      simp [h]
    · have hnk : (n == k) = false := by simpa using hk
      simp only [List.lookup_cons, hnk] at h
      exact List.mem_cons_of_mem _ (ih h)

/-! ## The two loops of `Parse` -/

theorem mem_names_syncSet {β : Type} (set : NameSpace β) (text : TextSet β) (n : String) :
    n ∈ (syncSet set text).names ↔ n ∈ set.names ∨ n ∈ text.map Prod.fst := by
  induction text with
  | nil => simp [syncSet]
  | cons p rest ih =>
    have hs : syncSet set (p :: rest) = (syncSet set rest).insert p.1 (some p.2) := rfl
    rw [hs, mem_names_insert, ih]
    simp only [List.map_cons, List.mem_cons]
    tauto

theorem get_syncSet {β : Type} (set : NameSpace β) (text : TextSet β) (n : String) :
    (syncSet set text).get n =
      match List.lookup n text with
      | some tree => some (some tree)
      | none => set.get n := by
  induction text with
  | nil => simp [syncSet]
  | cons p rest ih =>
    obtain ⟨k, v⟩ := p
    have hs : syncSet set ((k, v) :: rest) = (syncSet set rest).insert k (some v) := rfl
    rw [hs]
    by_cases hk : n = k
    · subst hk
      simp [get_insert_self, List.lookup_cons]
    · have hnk : (n == k) = false := by simpa using hk
      rw [get_insert_ne _ _ _ _ hk, ih]
      simp only [List.lookup_cons, hnk]

theorem syncSet_nodup {β : Type} (set : NameSpace β) (text : TextSet β)
    (h : set.names.Nodup) : (syncSet set text).names.Nodup := by
  induction text with
  | nil => simpa [syncSet] using h
  | cons p rest ih =>
    have hs : syncSet set (p :: rest) = (syncSet set rest).insert p.1 (some p.2) := rfl
    rw [hs]
    exact names_insert_nodup _ _ _ ih

theorem mem_names_textAdd {β δ : Type} (E : Env β δ) (text : TextSet β) (name : String)
    (tree : β) (n : String) :
    n ∈ (textAdd E text name tree).map Prod.fst ↔ n = name ∨ n ∈ text.map Prod.fst := by
  unfold textAdd
  by_cases hc : ((List.lookup name text).isSome && E.IsEmptyTree tree) = true
  · rw [if_pos hc]
    simp only [Bool.and_eq_true] at hc
    have hmem := (lookup_isSome_iff text name).mp hc.1
    constructor
    · exact Or.inr
    · rintro (h | h)
      · rw [h]; exact hmem
      · exact h
  · rw [if_neg hc]
    simp only [List.map_cons, List.mem_cons, List.mem_map, List.mem_filter]
    constructor
    · rintro (h | ⟨a, ⟨ha, _⟩, rfl⟩)
      · exact Or.inl h
      · exact Or.inr ⟨a, ha, rfl⟩
    · rintro (h | ⟨a, ha, rfl⟩)
      · exact Or.inl h
      · by_cases hn : a.1 = name
        · exact Or.inl hn
        · exact Or.inr ⟨a, ⟨ha, by simpa using hn⟩, rfl⟩

theorem mem_names_addTrees {β δ : Type} (E : Env β δ) (text : TextSet β)
    (trees : List (String × β)) (n : String) :
    n ∈ (addTrees E text trees).map Prod.fst ↔
      n ∈ text.map Prod.fst ∨ n ∈ trees.map Prod.fst := by
  induction trees generalizing text with
  | nil => simp [addTrees]
  | cons p rest ih =>
    have hs : addTrees E text (p :: rest) = addTrees E (textAdd E text p.1 p.2) rest := rfl
    rw [hs, ih, mem_names_textAdd]
    simp only [List.map_cons, List.mem_cons]
    tauto

theorem lookup_textAdd_ne {β δ : Type} (E : Env β δ) (text : TextSet β) (name : String)
    (tree : β) (n : String) (h : n ≠ name) :
    List.lookup n (textAdd E text name tree) = List.lookup n text := by
  unfold textAdd
  split
  · rfl
  · have hn : (n == name) = false := by simpa using h
    simp only [List.lookup_cons, hn]
    exact lookup_filter_ne text name n h

theorem lookup_textAdd_self {β δ : Type} (E : Env β δ) (text : TextSet β) (name : String)
    (tree : β) (h : E.IsEmptyTree tree = false) :
    List.lookup name (textAdd E text name tree) = some tree := by
  simp [textAdd, h, List.lookup_cons]

theorem lookup_addTrees_not_mem {β δ : Type} (E : Env β δ) (text : TextSet β)
    (trees : List (String × β)) (n : String) (h : n ∉ trees.map Prod.fst) :
    List.lookup n (addTrees E text trees) = List.lookup n text := by
  induction trees generalizing text with
  | nil => rfl
  | cons p rest ih =>
    have hs : addTrees E text (p :: rest) = addTrees E (textAdd E text p.1 p.2) rest := rfl
    simp only [List.map_cons, List.mem_cons, not_or] at h
    rw [hs, ih _ h.2, lookup_textAdd_ne E text p.1 p.2 n h.1]

/-- A tree that is not empty, parsed under a name the text yields once, is the
tree of that name afterwards. -/
theorem lookup_addTrees_mem {β δ : Type} (E : Env β δ) (text : TextSet β)
    (trees : List (String × β)) (n : String) (tree : β)
    (hnd : (trees.map Prod.fst).Nodup) (hmem : (n, tree) ∈ trees)
    (hne : E.IsEmptyTree tree = false) :
    List.lookup n (addTrees E text trees) = some tree := by
  induction trees generalizing text with
  | nil => cases hmem
  | cons p rest ih =>
    have hs : addTrees E text (p :: rest) = addTrees E (textAdd E text p.1 p.2) rest := rfl
    simp only [List.map_cons, List.nodup_cons] at hnd
    rw [hs]
    rcases List.mem_cons.mp hmem with h | h
    · subst h
      rw [lookup_addTrees_not_mem E _ rest n hnd.1]
      exact lookup_textAdd_self E text n tree hne
    · exact ih _ hnd.2 h

/-! ## The pattern loop -/

theorem matchLoop_ok {β δ : Type} (E : Env β δ) (path : String) (patterns : List String)
    (b : Bool) (h : matchLoop E path patterns = .ok b) : b = matchesAny E patterns path := by
  induction patterns with
  | nil =>
    simp only [matchLoop, Except.ok.injEq] at h
    simp [matchesAny, ← h]
  | cons pattern rest ih =>
    simp only [matchLoop] at h
    cases hm : E.Match pattern (E.Base path) with
    | error e => rw [hm] at h; cases h
    | ok r =>
      rw [hm] at h
      cases r with
      | true =>
        simp only [Except.ok.injEq] at h
        simp [matchesAny, hm, ← h]
      | false =>
        have := ih h
        simp only [matchesAny, List.any_cons, hm, Bool.false_or]
        exact this

theorem matchLoop_wellFormed {β δ : Type} (E : Env β δ) (path : String)
    (patterns : List String) (h : ∀ pattern ∈ patterns, ∃ b, E.Match pattern (E.Base path) = .ok b) :
    matchLoop E path patterns = .ok (matchesAny E patterns path) := by
  induction patterns with
  | nil => simp [matchLoop, matchesAny]
  | cons pattern rest ih =>
    obtain ⟨r, hm⟩ := h pattern (List.mem_cons_self _ _)
    have ih1 := ih (fun q hq => h q (List.mem_cons_of_mem _ hq))
    cases r with
    | true => simp [matchLoop, matchesAny, hm]
    | false =>
      simp only [matchLoop, hm, ih1, matchesAny, List.any_cons, Bool.false_or]

/-! ## One invocation of the callback -/

theorem walkFn_dir {β δ : Type} (E : Env β δ) (fsys : FS) (patterns : List String)
    (t : Option (Template β)) (d : DirEntry) (herr : d.err = none) (hd : d.isDir = true) :
    walkFn E fsys patterns t d = (t, none) := by
  simp [walkFn, herr, hd]

theorem walkFn_no_match {β δ : Type} (E : Env β δ) (fsys : FS) (patterns : List String)
    (t : Option (Template β)) (d : DirEntry) (herr : d.err = none)
    (hwf : ∀ pattern ∈ patterns, ∃ b, E.Match pattern (E.Base d.path) = .ok b)
    (hm : matchesAny E patterns d.path = false) :
    walkFn E fsys patterns t d = (t, none) := by
  unfold walkFn
  rw [herr]
  by_cases hd : d.isDir = true
  · simp [hd]
  · have hd1 : d.isDir = false := by simpa using hd
    simp [hd1, matchLoop_wellFormed E d.path patterns hwf, hm]

/-- The callback on a file the pattern loop matches and that is read: the file
is parsed in `baseSet`, under its path, and `t` follows. -/
theorem walkFn_matched {β δ : Type} (E : Env β δ) (fsys : FS) (patterns : List String)
    (t : Option (Template β)) (d : DirEntry) (s : String) (herr : d.err = none)
    (hd : d.isDir = false) (hm : matchLoop E d.path patterns = .ok true)
    (hr : fsys.readFile d.path = .ok s) :
    walkFn E fsys patterns t d =
      match E.Parse d.path s with
      | .error e => (some ⟨nameOf t d.path, baseSet t d.path, textOf t⟩, some e)
      | .ok trees =>
        (some ⟨nameOf t d.path, syncSet (baseSet t d.path) (addTrees E (textOf t) trees),
          addTrees E (textOf t) trees⟩, none) := by
  unfold walkFn
  rw [herr]
  simp only [hd, Bool.false_eq_true, if_false, hm, hr]
  cases t with
  | none =>
    simp only [tplNew, if_true, Template.Parse, nameOf, baseSet, textOf]
    cases E.Parse d.path s <;> rfl
  | some t0 =>
    by_cases hn : d.path = t0.name
    · simp only [hn, if_true, Template.Parse, nameOf, baseSet, textOf]
      cases E.Parse t0.name s <;> rfl
    · simp only [hn, if_false, Template.Parse, Template.New, nameOf, baseSet, textOf]
      cases E.Parse d.path s <;> rfl

theorem walkFn_ok {β δ : Type} (E : Env β δ) (fsys : FS) (patterns : List String)
    (t t1 : Option (Template β)) (d : DirEntry)
    (h : walkFn E fsys patterns t d = (t1, none)) :
    (selected E patterns d = false ∧ t1 = t) ∨
    (selected E patterns d = true ∧ ∃ s trees, fsys.readFile d.path = .ok s ∧
      E.Parse d.path s = .ok trees ∧
      t1 = some ⟨nameOf t d.path, syncSet (baseSet t d.path) (addTrees E (textOf t) trees),
        addTrees E (textOf t) trees⟩) := by
  cases herr : d.err with
  | some e => simp [walkFn, herr] at h
  | none =>
    by_cases hd : d.isDir = true
    · rw [walkFn_dir E fsys patterns t d herr hd] at h
      simp only [Prod.mk.injEq, and_true] at h
      exact Or.inl ⟨by simp [selected, hd], h.symm⟩
    · have hd1 : d.isDir = false := by simpa using hd
      cases hm : matchLoop E d.path patterns with
      | error e => simp [walkFn, herr, hd1, hm] at h
      | ok r =>
        have hr := matchLoop_ok E d.path patterns r hm
        cases r with
        | false =>
          simp only [walkFn, herr, hd1, hm, Bool.false_eq_true, if_false, Prod.mk.injEq,
            and_true] at h
          exact Or.inl ⟨by simp [selected, hd1, ← hr], h.symm⟩
        | true =>
          right
          refine ⟨by simp [selected, hd1, ← hr], ?_⟩
          cases hread : fsys.readFile d.path with
          | error e => simp [walkFn, herr, hd1, hm, hread] at h
          | ok s =>
            rw [walkFn_matched E fsys patterns t d s herr hd1 hm hread] at h
            cases hp : E.Parse d.path s with
            | error e => rw [hp] at h; simp at h
            | ok trees =>
              rw [hp] at h
              simp only [Prod.mk.injEq, and_true] at h
              exact ⟨s, trees, rfl, hp, h.symm⟩

theorem mem_names_baseSet {β : Type} (t : Option (Template β)) (path n : String)
    (hreg : ∀ t0, t = some t0 → t0.Registered) :
    n ∈ (baseSet t path).names ↔ n = path ∨ n ∈ (setOf t).names := by
  cases t with
  | none => simp [baseSet, setOf, NameSpace.names]
  | some t0 =>
    simp only [baseSet, setOf]
    by_cases hn : path = t0.name
    · simp only [hn, if_true]
      constructor
      · exact Or.inr
      · rintro (h | h)
        · rw [h]; exact hreg t0 rfl
        · exact h
    · simp only [hn, if_false, mem_names_insert]

theorem baseSet_nodup {β : Type} (t : Option (Template β)) (path : String)
    (h : (setOf t).names.Nodup) : (baseSet t path).names.Nodup := by
  cases t with
  | none => simp [baseSet, NameSpace.names]
  | some t0 =>
    simp only [baseSet, setOf] at h ⊢
    split
    · exact h
    · exact names_insert_nodup _ _ _ h

/-- Whatever it returns, the callback leaves an existing `t` with its name and
with every name its set held. -/
theorem walkFn_some {β δ : Type} (E : Env β δ) (fsys : FS) (patterns : List String)
    (t0 : Template β) (d : DirEntry) :
    ∃ t1, (walkFn E fsys patterns (some t0) d).1 = some t1 ∧ t1.name = t0.name ∧
      ∀ n ∈ t0.set.names, n ∈ t1.set.names := by
  have hbase : ∀ n ∈ t0.set.names, n ∈ (baseSet (some t0) d.path).names := by
    intro n hn
    simp only [baseSet]
    split
    · exact hn
    · exact (mem_names_insert _ _ _ _).mpr (Or.inr hn)
  cases herr : d.err with
  | some e => exact ⟨t0, by simp [walkFn, herr], rfl, fun _ h => h⟩
  | none =>
    by_cases hd : d.isDir = true
    · exact ⟨t0, by rw [walkFn_dir E fsys patterns _ d herr hd], rfl, fun _ h => h⟩
    · have hd1 : d.isDir = false := by simpa using hd
      cases hm : matchLoop E d.path patterns with
      | error e => exact ⟨t0, by simp [walkFn, herr, hd1, hm], rfl, fun _ h => h⟩
      | ok r =>
        cases r with
        | false => exact ⟨t0, by simp [walkFn, herr, hd1, hm], rfl, fun _ h => h⟩
        | true =>
          cases hread : fsys.readFile d.path with
          | error e => exact ⟨t0, by simp [walkFn, herr, hd1, hm, hread], rfl, fun _ h => h⟩
          | ok s =>
            rw [walkFn_matched E fsys patterns (some t0) d s herr hd1 hm hread]
            cases E.Parse d.path s with
            | error e => exact ⟨_, rfl, rfl, hbase⟩
            | ok trees =>
              exact ⟨_, rfl, rfl, fun n hn =>
                (mem_names_syncSet _ _ _).mpr (Or.inl (hbase n hn))⟩

/-- A successful invocation keeps `Inv`, and adds to the names of the set the
path of a selected file and the names of the trees its parse yields. -/
theorem walkFn_ok_inv {β δ : Type} (E : Env β δ) (fsys : FS) (patterns : List String)
    (t t1 : Option (Template β)) (d : DirEntry) (hinv : Inv t)
    (h : walkFn E fsys patterns t d = (t1, none)) :
    Inv t1 ∧ ∀ n, n ∈ (setOf t1).names ↔
      n ∈ (setOf t).names ∨
        (selected E patterns d = true ∧ (n = d.path ∨ n ∈ treeNames E fsys d)) := by
  rcases walkFn_ok E fsys patterns t t1 d h with ⟨hsel, ht⟩ | ⟨hsel, s, trees, hr, hp, ht⟩
  · subst ht
    exact ⟨hinv, fun n => by simp [hsel]⟩
  · subst ht
    have hnames : ∀ n, n ∈ (syncSet (baseSet t d.path) (addTrees E (textOf t) trees)).names ↔
        n ∈ (setOf t).names ∨ (n = d.path ∨ n ∈ trees.map Prod.fst) := by
      intro n
      rw [mem_names_syncSet, mem_names_baseSet t d.path n hinv.1, mem_names_addTrees]
      constructor
      · rintro ((h1 | h1) | (h1 | h1))
        · exact Or.inr (Or.inl h1)
        · exact Or.inl h1
        · exact Or.inl (hinv.2 n h1)
        · exact Or.inr (Or.inr h1)
      · rintro (h1 | h1 | h1)
        · exact Or.inl (Or.inr h1)
        · exact Or.inl (Or.inl h1)
        · exact Or.inr (Or.inr h1)
    have htn : treeNames E fsys d = trees.map Prod.fst := by
      simp [treeNames, hr, hp]
    refine ⟨⟨?_, ?_⟩, fun n => ?_⟩
    · intro t0 ht0
      simp only [Option.some.injEq] at ht0
      subst ht0
      simp only [Template.Registered]
      rw [hnames]
      cases t with
      | none => exact Or.inr (Or.inl rfl)
      | some t2 => exact Or.inl (hinv.1 t2 rfl)
    · intro n hn
      simp only [textOf, setOf] at hn ⊢
      exact (mem_names_syncSet _ _ _).mpr (Or.inr hn)
    · simp only [setOf, hsel, true_and, htn]
      exact hnames n

/-- Whatever it returns, the callback leaves the fragments of a set that is in
step with its parsed trees as they were, except those named by the path of a
selected file or by a tree its parse yields; and when it returns no error the
set is in step with its parsed trees again. -/
theorem walkFn_some_get {β δ : Type} (E : Env β δ) (fsys : FS) (patterns : List String)
    (t0 t1 : Template β) (d : DirEntry) (hs : t0.Synced)
    (h1 : (walkFn E fsys patterns (some t0) d).1 = some t1) :
    (∀ n, ¬ (selected E patterns d = true ∧ (n = d.path ∨ n ∈ treeNames E fsys d)) →
      t1.set.get n = t0.set.get n) ∧
    ((walkFn E fsys patterns (some t0) d).2 = none → t1.Synced) := by
  have hsame : ∀ oe, walkFn E fsys patterns (some t0) d = (some t0, oe) →
      (∀ n, ¬ (selected E patterns d = true ∧ (n = d.path ∨ n ∈ treeNames E fsys d)) →
        t1.set.get n = t0.set.get n) ∧
      ((walkFn E fsys patterns (some t0) d).2 = none → t1.Synced) := by
    intro oe hw
    rw [hw] at h1
    simp only [Option.some.injEq] at h1
    subst h1
    exact ⟨fun _ _ => rfl, fun _ => hs⟩
  cases herr : d.err with
  | some e => exact hsame (some e) (by simp [walkFn, herr])
  | none =>
    by_cases hd : d.isDir = true
    · exact hsame none (walkFn_dir E fsys patterns _ d herr hd)
    · have hd1 : d.isDir = false := by simpa using hd
      cases hm : matchLoop E d.path patterns with
      | error e => exact hsame (some e) (by simp [walkFn, herr, hd1, hm])
      | ok r =>
        have hr := matchLoop_ok E d.path patterns r hm
        cases r with
        | false => exact hsame none (by simp [walkFn, herr, hd1, hm])
        | true =>
          have hsel : selected E patterns d = true := by simp [selected, hd1, ← hr]
          cases hread : fsys.readFile d.path with
          | error e => exact hsame (some e) (by simp [walkFn, herr, hd1, hm, hread])
          | ok s =>
            have hbase : ∀ n, n ≠ d.path → (baseSet (some t0) d.path).get n = t0.set.get n := by
              intro n hn
              simp only [baseSet]
              split
              · rfl
              · exact get_insert_ne _ _ _ _ hn
            rw [walkFn_matched E fsys patterns (some t0) d s herr hd1 hm hread] at h1 ⊢
            cases hp : E.Parse d.path s with
            | error e =>
              rw [hp] at h1
              simp only [Option.some.injEq] at h1
              subst h1
              refine ⟨fun n hn => ?_, fun hne => by simp at hne⟩
              simp only [hsel, true_and, not_or] at hn
              exact hbase n hn.1
            | ok trees =>
              rw [hp] at h1
              simp only [Option.some.injEq] at h1
              subst h1
              have htn : treeNames E fsys d = trees.map Prod.fst := by
                simp [treeNames, hread, hp]
              refine ⟨fun n hn => ?_, fun _ n tree hl => ?_⟩
              · simp only [hsel, true_and, not_or, htn] at hn
                simp only [nameOf, textOf]
                rw [get_syncSet, lookup_addTrees_not_mem E t0.text trees n hn.2]
                cases hl : List.lookup n t0.text with
                | none => exact hbase n hn.1
                | some tree => exact (hs n tree hl).symm
              · simp only [nameOf, textOf] at hl ⊢
                rw [get_syncSet, hl]

/-! ## The walk -/

theorem walkDir_cons_ok {β : Type}
    (fn : Option (Template β) → DirEntry → Option (Template β) × Option Error)
    (d : DirEntry) (rest : List DirEntry) (t t2 : Option (Template β))
    (h : walkDir fn (d :: rest) t = (t2, none)) :
    ∃ t1, fn t d = (t1, none) ∧ walkDir fn rest t1 = (t2, none) := by
  simp only [walkDir] at h
  cases hf : fn t d with
  | mk t1 oe =>
    rw [hf] at h
    cases oe with
    | some e => simp at h
    | none => exact ⟨t1, rfl, h⟩

theorem walkDir_append {β : Type}
    (fn : Option (Template β) → DirEntry → Option (Template β) × Option Error)
    (pre post : List DirEntry) (t t1 : Option (Template β))
    (h : walkDir fn pre t = (t1, none)) :
    walkDir fn (pre ++ post) t = walkDir fn post t1 := by
  induction pre generalizing t with
  | nil =>
    simp only [walkDir, Prod.mk.injEq, and_true] at h
    simp [h]
  | cons d rest ih =>
    obtain ⟨t2, hf, hrest⟩ := walkDir_cons_ok fn d rest t t1 h
    simp only [List.cons_append, walkDir, hf]
    exact ih t2 hrest

/-- Names after a successful walk: those of before, the selected paths and the
names of the trees the selected files yield. -/
theorem walkDir_ok_names {β δ : Type} (E : Env β δ) (fsys : FS) (patterns : List String)
    (ds : List DirEntry) (t t2 : Option (Template β)) (hinv : Inv t)
    (h : walkDir (walkFn E fsys patterns) ds t = (t2, none)) :
    Inv t2 ∧ ∀ n, n ∈ (setOf t2).names ↔
      n ∈ (setOf t).names ∨ n ∈ (ds.filter (selected E patterns)).map DirEntry.path ∨
        n ∈ (ds.filter (selected E patterns)).flatMap (treeNames E fsys) := by
  induction ds generalizing t with
  | nil =>
    simp only [walkDir, Prod.mk.injEq, and_true] at h
    subst h
    exact ⟨hinv, fun n => by simp⟩
  | cons d rest ih =>
    obtain ⟨t1, hf, hrest⟩ := walkDir_cons_ok _ d rest t t2 h
    obtain ⟨hinv1, hstep⟩ := walkFn_ok_inv E fsys patterns t t1 d hinv hf
    obtain ⟨hinv2, hnames⟩ := ih t1 hinv1 hrest
    refine ⟨hinv2, fun n => ?_⟩
    rw [hnames, hstep]
    by_cases hsel : selected E patterns d = true
    · simp only [hsel, true_and, List.filter_cons, if_true, List.map_cons, List.mem_cons,
        List.flatMap_cons, List.mem_append]
      tauto
    · have hsel1 : selected E patterns d = false := by simpa using hsel
      simp only [hsel1, Bool.false_eq_true, false_and, or_false, List.filter_cons, if_false]

/-- After a successful walk every selected file was read and parsed. -/
theorem walkDir_ok_parsed {β δ : Type} (E : Env β δ) (fsys : FS)
    (patterns : List String) (ds : List DirEntry) (t t2 : Option (Template β))
    (h : walkDir (walkFn E fsys patterns) ds t = (t2, none)) :
    ∀ d ∈ ds, selected E patterns d = true →
      ∃ s trees, fsys.readFile d.path = .ok s ∧ E.Parse d.path s = .ok trees := by
  induction ds generalizing t with
  | nil => intro d hd; cases hd
  | cons d0 rest ih =>
    intro d hd hsel
    obtain ⟨t1, hf, hrest⟩ := walkDir_cons_ok _ d0 rest t t2 h
    rcases List.mem_cons.mp hd with h0 | h0
    · subst h0
      rcases walkFn_ok E fsys patterns t t1 d hf with ⟨hns, _⟩ | ⟨_, s, trees, hr, hp, _⟩
      · rw [hsel] at hns; cases hns
      · exact ⟨s, trees, hr, hp⟩
    · exact ih t1 hrest d h0 hsel

/-- An existing `t` keeps its name and the names of its set through a walk,
whatever the outcome. -/
theorem walkDir_some {β δ : Type} (E : Env β δ) (fsys : FS) (patterns : List String)
    (ds : List DirEntry) (t0 : Template β) :
    ∃ t1, (walkDir (walkFn E fsys patterns) ds (some t0)).1 = some t1 ∧ t1.name = t0.name ∧
      ∀ n ∈ t0.set.names, n ∈ t1.set.names := by
  induction ds generalizing t0 with
  | nil => exact ⟨t0, rfl, rfl, fun _ h => h⟩
  | cons d rest ih =>
    obtain ⟨t1, h1, hname, hkeep⟩ := walkFn_some E fsys patterns t0 d
    cases hf : walkFn E fsys patterns (some t0) d with
    | mk s1 oe =>
      rw [hf] at h1
      simp only at h1
      subst h1
      cases oe with
      | some e => exact ⟨t1, by simp [walkDir, hf], hname, hkeep⟩
      | none =>
        obtain ⟨t2, h2, hname2, hkeep2⟩ := ih t1
        exact ⟨t2, by simpa [walkDir, hf] using h2, hname2.trans hname,
          fun n hn => hkeep2 n (hkeep n hn)⟩

/-- After a successful walk from a registered `t`, the path of every selected
file is a name of the set. -/
theorem walkDir_ok_paths {β δ : Type} (E : Env β δ) (fsys : FS) (patterns : List String)
    (ds : List DirEntry) (t0 t2 : Template β) (hreg : t0.Registered)
    (h : walkDir (walkFn E fsys patterns) ds (some t0) = (some t2, none)) :
    ∀ d ∈ ds, selected E patterns d = true → d.path ∈ t2.set.names := by
  induction ds generalizing t0 with
  | nil => intro d hd; cases hd
  | cons d0 rest ih =>
    intro d hd hsel
    obtain ⟨s1, hf, hrest⟩ := walkDir_cons_ok _ d0 rest (some t0) (some t2) h
    obtain ⟨t1, h1, hname, hkeep⟩ := walkFn_some E fsys patterns t0 d0
    rw [hf] at h1
    simp only at h1
    subst h1
    have hreg1 : t1.Registered := by
      simp only [Template.Registered, hname]
      exact hkeep _ hreg
    rcases List.mem_cons.mp hd with h0 | h0
    · subst h0
      obtain ⟨t3, h3, _, hkeep3⟩ := walkDir_some E fsys patterns rest t1
      rw [hrest] at h3
      simp only [Option.some.injEq] at h3
      subst h3
      apply hkeep3
      rcases walkFn_ok E fsys patterns (some t0) (some t1) d hf with
        ⟨hns, _⟩ | ⟨_, s, trees, _, _, ht⟩
      · rw [hsel] at hns; cases hns
      · simp only [Option.some.injEq] at ht
        rw [ht]
        exact (mem_names_syncSet _ _ _).mpr
          (Or.inl ((mem_names_baseSet (some t0) d.path d.path
            (fun t4 h4 => by cases h4; exact hreg)).mpr (Or.inl rfl)))
    · exact ih t1 hreg1 hrest d h0 hsel

/-- Starting without a set, a successful walk ends without a set when no entry
is selected, and otherwise with a set named by the first selected path. -/
theorem walkDir_none_ok {β δ : Type} (E : Env β δ) (fsys : FS) (patterns : List String)
    (ds : List DirEntry) (t2 : Option (Template β))
    (h : walkDir (walkFn E fsys patterns) ds none = (t2, none)) :
    (ds.find? (selected E patterns) = none ∧ t2 = none) ∨
    (∃ d t1, ds.find? (selected E patterns) = some d ∧ t2 = some t1 ∧ t1.name = d.path) := by
  induction ds with
  | nil =>
    simp only [walkDir, Prod.mk.injEq, and_true] at h
    exact Or.inl ⟨rfl, h.symm⟩
  | cons d rest ih =>
    obtain ⟨t1, hf, hrest⟩ := walkDir_cons_ok _ d rest none t2 h
    rcases walkFn_ok E fsys patterns none t1 d hf with ⟨hsel, ht⟩ | ⟨hsel, s, trees, _, _, ht⟩
    · subst ht
      simpa [List.find?_cons, hsel] using ih hrest
    · right
      subst ht
      obtain ⟨t3, h3, hname, _⟩ := walkDir_some E fsys patterns rest
        ⟨nameOf none d.path, syncSet (baseSet none d.path) (addTrees E (textOf none) trees),
          addTrees E (textOf none) trees⟩
      rw [hrest] at h3
      exact ⟨d, t3, by simp [List.find?_cons, hsel], h3, hname⟩

/-- A successful walk keeps the names of the set free of duplicates. -/
theorem walkDir_ok_nodup {β δ : Type} (E : Env β δ) (fsys : FS) (patterns : List String)
    (ds : List DirEntry) (t t2 : Option (Template β))
    (h : walkDir (walkFn E fsys patterns) ds t = (t2, none))
    (hnd : (setOf t).names.Nodup) : (setOf t2).names.Nodup := by
  induction ds generalizing t with
  | nil =>
    simp only [walkDir, Prod.mk.injEq, and_true] at h
    rw [← h]; exact hnd
  | cons d rest ih =>
    obtain ⟨t1, hf, hrest⟩ := walkDir_cons_ok _ d rest t t2 h
    apply ih t1 hrest
    rcases walkFn_ok E fsys patterns t t1 d hf with ⟨_, ht⟩ | ⟨_, s, trees, _, _, ht⟩
    · rw [ht]; exact hnd
    · rw [ht]; exact syncSet_nodup _ _ (baseSet_nodup t d.path hnd)

/-- Whatever the outcome of a walk, the fragments of an existing set that is in
step with its parsed trees are as they were, except those named by the path of
a selected file or by a tree the parse of a selected file yields. -/
theorem walkDir_some_get {β δ : Type} (E : Env β δ) (fsys : FS) (patterns : List String)
    (ds : List DirEntry) (t0 t1 : Template β) (hs : t0.Synced)
    (h1 : (walkDir (walkFn E fsys patterns) ds (some t0)).1 = some t1) :
    ∀ n, n ∉ (ds.filter (selected E patterns)).map DirEntry.path →
      n ∉ (ds.filter (selected E patterns)).flatMap (treeNames E fsys) →
      t1.set.get n = t0.set.get n := by
  induction ds generalizing t0 with
  | nil =>
    simp only [walkDir, Option.some.injEq] at h1
    subst h1
    exact fun _ _ _ => rfl
  | cons d rest ih =>
    intro n hp hdn
    obtain ⟨t2, h2, _, _⟩ := walkFn_some E fsys patterns t0 d
    obtain ⟨hget, hsync⟩ := walkFn_some_get E fsys patterns t0 t2 d hs h2
    have hstep : t2.set.get n = t0.set.get n := by
      apply hget
      rintro ⟨hsel, hn⟩
      rcases hn with hn | hn
      · exact hp (by simp [List.filter_cons, hsel, hn])
      · exact hdn (by simp [List.filter_cons, hsel, hn])
    have hp1 : n ∉ (rest.filter (selected E patterns)).map DirEntry.path := by
      intro hmem
      apply hp
      by_cases hsel : selected E patterns d = true
      · simp only [List.filter_cons, hsel, if_true, List.map_cons, List.mem_cons]
        exact Or.inr hmem
      · simpa [List.filter_cons, hsel] using hmem
    have hdn1 : n ∉ (rest.filter (selected E patterns)).flatMap (treeNames E fsys) := by
      intro hmem
      apply hdn
      by_cases hsel : selected E patterns d = true
      · simp only [List.filter_cons, hsel, if_true, List.flatMap_cons, List.mem_append]
        exact Or.inr hmem
      · simpa [List.filter_cons, hsel] using hmem
    cases hf : walkFn E fsys patterns (some t0) d with
    | mk s1 oe =>
      rw [hf] at h2 hsync
      simp only at h2 hsync
      subst h2
      cases oe with
      | some e =>
        simp only [walkDir, hf, Option.some.injEq] at h1
        subst h1
        exact hstep
      | none =>
        simp only [walkDir, hf] at h1
        rw [ih t2 (hsync rfl) h1 n hp1 hdn1]
        exact hstep

/-! ## `ParseFS` and `New` in terms of the walk -/

theorem ParseFS_ok {β δ : Type} (E : Env β δ) (t : Option (Template β)) (fsys : FS)
    (patterns : List String) (r : Template β) (h : (ParseFS E t fsys patterns).ret = .ok r) :
    walkDir (walkFn E fsys patterns) fsys.walk t = (some r, none) ∧
      (ParseFS E t fsys patterns).t = some r := by
  unfold ParseFS at h ⊢
  cases hw : walkDir (walkFn E fsys patterns) fsys.walk t with
  | mk t1 oe =>
    rw [hw] at h
    cases oe with
    | some e => simp at h
    | none =>
      cases t1 with
      | none => simp at h
      | some t1 =>
        simp only [Except.ok.injEq] at h
        simp [h]

theorem ParseFS_walk_error {β δ : Type} (E : Env β δ) (t t1 : Option (Template β)) (fsys : FS)
    (patterns : List String) (e : Error)
    (h : walkDir (walkFn E fsys patterns) fsys.walk t = (t1, some e)) :
    ParseFS E t fsys patterns = ⟨.error e, t1⟩ := by
  simp [ParseFS, h]

theorem ParseFS_t {β δ : Type} (E : Env β δ) (t : Option (Template β)) (fsys : FS)
    (patterns : List String) :
    (ParseFS E t fsys patterns).t = (walkDir (walkFn E fsys patterns) fsys.walk t).1 := by
  unfold ParseFS
  cases hw : walkDir (walkFn E fsys patterns) fsys.walk t with
  | mk t1 oe =>
    cases oe <;> cases t1 <;> rfl

theorem New_ok {β δ : Type} (E : Env β δ) (fsys : FS) (patterns : List String) (e : Engine β)
    (h : New E fsys patterns = .ok e) :
    ∃ l, e.layout = some l ∧ (ParseFS E none fsys patterns).ret = .ok l := by
  unfold New at h
  cases hr : (ParseFS E none fsys patterns).ret with
  | error err => rw [hr] at h; simp at h
  | ok l =>
    rw [hr] at h
    simp only [Except.ok.injEq] at h
    exact ⟨l, by rw [← h], rfl⟩

theorem New_error {β δ : Type} (E : Env β δ) (fsys : FS) (patterns : List String) (e : Error)
    (h : (ParseFS E none fsys patterns).ret = .error e) : New E fsys patterns = .error e := by
  simp [New, h]

/-- A successful walk leaves the set in step with its parsed trees. -/
theorem walkDir_ok_synced {β δ : Type} (E : Env β δ) (fsys : FS) (patterns : List String)
    (ds : List DirEntry) (t t2 : Option (Template β))
    (hs : ∀ t0, t = some t0 → t0.Synced)
    (h : walkDir (walkFn E fsys patterns) ds t = (t2, none)) :
    ∀ t0, t2 = some t0 → t0.Synced := by
  induction ds generalizing t with
  | nil =>
    simp only [walkDir, Prod.mk.injEq, and_true] at h
    rw [← h]; exact hs
  | cons d rest ih =>
    obtain ⟨t1, hf, hrest⟩ := walkDir_cons_ok _ d rest t t2 h
    apply ih t1 ?_ hrest
    rcases walkFn_ok E fsys patterns t t1 d hf with ⟨_, ht⟩ | ⟨_, s, trees, _, _, ht⟩
    · rw [ht]; exact hs
    · intro t0 ht0
      rw [ht] at ht0
      simp only [Option.some.injEq] at ht0
      subst ht0
      intro n tree hl
      simp only at hl ⊢
      rw [get_syncSet, hl]

/-- The layout `New` returns is registered under its name and in step with its
parsed trees. -/
theorem New_layout_registered_synced {β δ : Type} (E : Env β δ) (fsys : FS)
    (patterns : List String) (e : Engine β) (h : New E fsys patterns = .ok e) :
    ∃ l, e.layout = some l ∧ l.Registered ∧ l.Synced := by
  obtain ⟨l, hl, hret⟩ := New_ok E fsys patterns e h
  obtain ⟨hw, _⟩ := ParseFS_ok E none fsys patterns l hret
  have hinv : Inv (none : Option (Template β)) :=
    ⟨fun t0 ht0 => Option.noConfusion ht0, fun n hn => by simp [textOf] at hn⟩
  exact ⟨l, hl, (walkDir_ok_names E fsys patterns fsys.walk none (some l) hinv hw).1.1 l rfl,
    walkDir_ok_synced E fsys patterns fsys.walk none (some l)
      (fun t0 ht0 => Option.noConfusion ht0) hw l rfl⟩

/-! ## Composition: `New` and `ParseFS` -/

/-- C1, as stated, fails: `a.html` defines the template `nav`, and the set `New`
composes from it has the names `a.html` and `nav`, of which `nav` is the path of
no file. -/
theorem New_names_define_counterexample :
    New exEnv exDefineFS ["*.html"] = .ok ⟨some exDefined⟩ ∧
    exDefined.set.names = ["nav", "a.html"] ∧
    matchedPaths exEnv exDefineFS ["*.html"] = ["a.html"] ∧
    "nav" ∈ exDefined.set.names ∧ "nav" ∉ matchedPaths exEnv exDefineFS ["*.html"] :=
  ⟨rfl, rfl, by decide, by decide, by decide⟩

/-- C1, amended: when `New` succeeds, the names of the resulting set, each
once, are exactly the paths of the non-directory entries whose base name
matches at least one pattern together with the names of the trees the parses of
those files yield, that is of the templates they define; they are exactly those
paths when the parse of every such file yields no other name than its path.  An
entry that is a directory or, for well-formed patterns, a file whose base name
matches no pattern is passed over by the callback without an error and without
touching the set. -/
theorem New_names_eq_matched_and_defined {β δ : Type} (E : Env β δ) (fsys : FS)
    (patterns : List String) (e : Engine β) (h : New E fsys patterns = .ok e) :
    (∃ l, e.layout = some l ∧ l.set.names.Nodup ∧
      (∀ n, n ∈ l.set.names ↔
        n ∈ matchedPaths E fsys patterns ∨ n ∈ definedNames E fsys patterns) ∧
      ((∀ d ∈ fsys.walk, selected E patterns d = true →
          ∀ n ∈ treeNames E fsys d, n = d.path) →
        ∀ n, n ∈ l.set.names ↔ n ∈ matchedPaths E fsys patterns)) ∧
    (∀ (t : Option (Template β)) (d : DirEntry), d.err = none →
      (d.isDir = true ∨ (WellFormed E patterns ∧ matchesAny E patterns d.path = false)) →
      walkFn E fsys patterns t d = (t, none)) := by
  obtain ⟨l, hl, hret⟩ := New_ok E fsys patterns e h
  obtain ⟨hw, _⟩ := ParseFS_ok E none fsys patterns l hret
  have hinv : Inv (none : Option (Template β)) :=
    ⟨fun t0 ht0 => Option.noConfusion ht0, fun n hn => by simp [textOf] at hn⟩
  have hnames : ∀ n, n ∈ l.set.names ↔
      n ∈ matchedPaths E fsys patterns ∨ n ∈ definedNames E fsys patterns := by
    intro n
    have := (walkDir_ok_names E fsys patterns fsys.walk none (some l) hinv hw).2 n
    simpa [setOf, NameSpace.names, matchedPaths, definedNames] using this
  refine ⟨⟨l, hl, ?_, hnames, fun hown n => ?_⟩, fun t d herr hcase => ?_⟩
  · exact walkDir_ok_nodup E fsys patterns fsys.walk none (some l) hw
      (by simp [setOf, NameSpace.names])
  · rw [hnames]
    constructor
    · rintro (h1 | h1)
      · exact h1
      · simp only [definedNames, List.mem_flatMap] at h1
        obtain ⟨d, hd, hn⟩ := h1
        obtain ⟨hdmem, hdsel⟩ := List.mem_filter.mp hd
        rw [hown d hdmem hdsel n hn]
        exact List.mem_map.mpr ⟨d, hd, rfl⟩
    · exact Or.inl
  · rcases hcase with hd | ⟨hwf, hm⟩
    · exact walkFn_dir E fsys patterns t d herr hd
    · exact walkFn_no_match E fsys patterns t d herr
        (fun pattern hp => hwf pattern hp (E.Base d.path)) hm

/-- Witness of C1, amended: `New` on the file `a.html`, which defines `nav`, with
the pattern `*.html`. -/
theorem New_names_eq_matched_and_defined_witness :
    New exEnv exDefineFS ["*.html"] = .ok ⟨some exDefined⟩ ∧
    definedNames exEnv exDefineFS ["*.html"] = ["a.html", "nav"] ∧
    ((∃ l, (⟨some exDefined⟩ : Engine String).layout = some l ∧ l.set.names.Nodup ∧
      (∀ n, n ∈ l.set.names ↔
        n ∈ matchedPaths exEnv exDefineFS ["*.html"] ∨
          n ∈ definedNames exEnv exDefineFS ["*.html"]) ∧
      ((∀ d ∈ exDefineFS.walk, selected exEnv ["*.html"] d = true →
          ∀ n ∈ treeNames exEnv exDefineFS d, n = d.path) →
        ∀ n, n ∈ l.set.names ↔ n ∈ matchedPaths exEnv exDefineFS ["*.html"])) ∧
    (∀ (t : Option (Template String)) (d : DirEntry), d.err = none →
      (d.isDir = true ∨
        (WellFormed exEnv ["*.html"] ∧ matchesAny exEnv ["*.html"] d.path = false)) →
      walkFn exEnv exDefineFS ["*.html"] t d = (t, none))) :=
  ⟨rfl, by decide,
    New_names_eq_matched_and_defined exEnv exDefineFS ["*.html"] ⟨some exDefined⟩ rfl⟩

/-- C2: when `New` succeeds, the primary name of the layout is the path of the
first selected entry (non-directory, base name matching a pattern) in walk
order. -/
theorem New_primary_is_first_match {β δ : Type} (E : Env β δ) (fsys : FS)
    (patterns : List String) (e : Engine β) (h : New E fsys patterns = .ok e) :
    ∃ l d, e.layout = some l ∧ fsys.walk.find? (selected E patterns) = some d ∧
      l.name = d.path := by
  obtain ⟨l, hl, hret⟩ := New_ok E fsys patterns e h
  obtain ⟨hw, _⟩ := ParseFS_ok E none fsys patterns l hret
  rcases walkDir_none_ok E fsys patterns fsys.walk (some l) hw with ⟨_, hnone⟩ | ⟨d, t1, hd, ht, hn⟩
  · cases hnone
  · simp only [Option.some.injEq] at ht
    subst ht
    exact ⟨l, d, hl, hd, hn⟩

/-- Witness of C2: the primary name composed from `exFS` is `a.html`, the first
file matching `*.html`. -/
theorem New_primary_is_first_match_witness :
    New exEnv exFS ["*.html"] = .ok ⟨some exComposed⟩ ∧
    ∃ l d, (⟨some exComposed⟩ : Engine String).layout = some l ∧
      exFS.walk.find? (selected exEnv ["*.html"]) = some d ∧ l.name = d.path :=
  ⟨rfl, New_primary_is_first_match exEnv exFS ["*.html"] ⟨some exComposed⟩ rfl⟩

/-- C3: the code departs from the claim.  The file `index.html` is empty and its
path is the primary name of the existing set `exLayout`, whose primary holds
the body `OLD`.  `ParseFS` succeeds, the parse of the file yields the empty
top-level tree, and the primary fragment still resolves to `OLD`: the file has
not become the contents of the primary. -/
theorem ParseFS_empty_primary_keeps_body :
    selected exEnv ["*.html"] ⟨"index.html", false, none⟩ = true ∧
    exEmptyIndexFS.readFile "index.html" = .ok "" ∧
    exEnv.Parse "index.html" "" = .ok [("index.html", "")] ∧
    exLayout.Lookup "index.html" = some "OLD" ∧
    (ParseFS exEnv (some exLayout) exEmptyIndexFS ["*.html"]).ret = .ok exLayout ∧
    (ParseFS exEnv (some exLayout) exEmptyIndexFS ["*.html"]).ret.toOption.map
      (fun r => r.Lookup r.name) = some (some "OLD") :=
  ⟨by decide, rfl, rfl, rfl, rfl, rfl⟩

/-- C4, as stated, fails when a set is being extended: none of the files
`a.html`, `b.txt`, `c.html`, `sub/d.html` matches `*.xml`, and `ParseFS` called
with the existing set `exLayout` succeeds and returns it, where `New` fails. -/
theorem ParseFS_no_match_existing_counterexample :
    (∀ d ∈ exFS.walk, selected exEnv ["*.xml"] d = false) ∧
    (ParseFS exEnv (some exLayout) exFS ["*.xml"]).ret = .ok exLayout ∧
    (ParseFS exEnv (some exLayout) exFS ["*.xml"]).ret ≠ .error Error.emptyTemplate := by
  refine ⟨by decide, rfl, ?_⟩
  intro h
  have h1 : (ParseFS exEnv (some exLayout) exFS ["*.xml"]).ret = .ok exLayout := rfl
  rw [h1] at h
  cases h

theorem matchesAny_of_all_false {β δ : Type} (E : Env β δ) (patterns : List String)
    (path : String)
    (h : ∀ pattern ∈ patterns, E.Match pattern (E.Base path) = .ok false) :
    matchesAny E patterns path = false := by
  unfold matchesAny
  rw [List.any_eq_false]
  intro pattern hp
  simp [h pattern hp]

theorem walkDir_no_match {β δ : Type} (E : Env β δ) (fsys : FS) (patterns : List String)
    (ds : List DirEntry) (t : Option (Template β))
    (hwalk : ∀ d ∈ ds, d.err = none)
    (hno : ∀ d ∈ ds, d.isDir = false →
      ∀ pattern ∈ patterns, E.Match pattern (E.Base d.path) = .ok false) :
    walkDir (walkFn E fsys patterns) ds t = (t, none) := by
  induction ds with
  | nil => rfl
  | cons d rest ih =>
    have herr := hwalk d (List.mem_cons_self _ _)
    have hstep : walkFn E fsys patterns t d = (t, none) := by
      by_cases hd : d.isDir = true
      · exact walkFn_dir E fsys patterns t d herr hd
      · have hd1 : d.isDir = false := by simpa using hd
        have hall := hno d (List.mem_cons_self _ _) hd1
        exact walkFn_no_match E fsys patterns t d herr
          (fun pattern hp => ⟨false, hall pattern hp⟩)
          (matchesAny_of_all_false E patterns d.path hall)
    simp only [walkDir, hstep]
    exact ih (fun d1 h1 => hwalk d1 (List.mem_cons_of_mem _ h1))
      (fun d1 h1 => hno d1 (List.mem_cons_of_mem _ h1))

/-- C4, amended: if the walk reports no error and every pattern rejects the
base name of every non-directory file without a pattern error, then `ParseFS`
called without a set, and so `New`, fails with the empty-template error and
returns no set, while `ParseFS` called with an existing set `t` succeeds and
returns `t` as it was. -/
theorem ParseFS_no_match {β δ : Type} (E : Env β δ) (fsys : FS) (patterns : List String)
    (hwalk : ∀ d ∈ fsys.walk, d.err = none)
    (hno : ∀ d ∈ fsys.walk, d.isDir = false →
      ∀ pattern ∈ patterns, E.Match pattern (E.Base d.path) = .ok false) :
    ParseFS E none fsys patterns = ⟨.error Error.emptyTemplate, none⟩ ∧
    New E fsys patterns = .error Error.emptyTemplate ∧
    ∀ t : Template β, ParseFS E (some t) fsys patterns = ⟨.ok t, some t⟩ := by
  have hnone : ParseFS E none fsys patterns = ⟨.error Error.emptyTemplate, none⟩ := by
    simp [ParseFS, walkDir_no_match E fsys patterns fsys.walk none hwalk hno]
  refine ⟨hnone, ?_, fun t => ?_⟩
  · exact New_error E fsys patterns _ (by rw [hnone])
  · simp [ParseFS, walkDir_no_match E fsys patterns fsys.walk (some t) hwalk hno]

/-- Witness of C4, amended: the files of `exFS` and the pattern `*.xml`. -/
theorem ParseFS_no_match_witness :
    (∀ d ∈ exFS.walk, d.err = none) ∧
    (∀ d ∈ exFS.walk, d.isDir = false →
      ∀ pattern ∈ ["*.xml"], exEnv.Match pattern (exEnv.Base d.path) = .ok false) ∧
    (ParseFS exEnv none exFS ["*.xml"] = ⟨.error Error.emptyTemplate, none⟩ ∧
    New exEnv exFS ["*.xml"] = .error Error.emptyTemplate ∧
    ∀ t : Template String, ParseFS exEnv (some t) exFS ["*.xml"] = ⟨.ok t, some t⟩) :=
  ⟨by decide, by decide, ParseFS_no_match exEnv exFS ["*.xml"] (by decide) (by decide)⟩

/-- C5: composition never returns a partially composed set.  If a selected
file cannot be read or parsed, `ParseFS` returns an error and no set, and `New`
no engine; and when the entries before a file are processed without error and
the file, matched by the pattern loop, fails to read or to parse with the error
`e`, then `e` is the error `ParseFS` and `New` return, however many files were
processed before. -/
theorem ParseFS_failure_returns_no_set {β δ : Type} (E : Env β δ) (t : Option (Template β))
    (fsys : FS) (patterns : List String) :
    (∀ d ∈ fsys.walk, selected E patterns d = true →
      (∀ s b, fsys.readFile d.path = .ok s → E.Parse d.path s ≠ .ok b) →
      ∃ e, (ParseFS E t fsys patterns).ret = .error e ∧
        (t = none → New E fsys patterns = .error e)) ∧
    (∀ (pre post : List DirEntry) (d : DirEntry) (t1 : Option (Template β)) (e : Error),
      fsys.walk = pre ++ d :: post →
      walkDir (walkFn E fsys patterns) pre t = (t1, none) →
      d.err = none → d.isDir = false → matchLoop E d.path patterns = .ok true →
      (fsys.readFile d.path = .error e ∨
        ∃ s, fsys.readFile d.path = .ok s ∧ E.Parse d.path s = .error e) →
      (ParseFS E t fsys patterns).ret = .error e ∧
        (t = none → New E fsys patterns = .error e)) := by
  constructor
  · intro d hd hsel hfail
    cases hret : (ParseFS E t fsys patterns).ret with
    | error e =>
      refine ⟨e, rfl, fun ht => ?_⟩
      subst ht
      exact New_error E fsys patterns e hret
    | ok r =>
      obtain ⟨hw, _⟩ := ParseFS_ok E t fsys patterns r hret
      obtain ⟨s, b, hr, hp⟩ :=
        walkDir_ok_parsed E fsys patterns fsys.walk t (some r) hw d hd hsel
      exact absurd hp (hfail s b hr)
  · intro pre post d t1 e hwalk hpre herr hdir hm hfail
    have hstep : ∃ t2, walkFn E fsys patterns t1 d = (t2, some e) := by
      rcases hfail with hr | ⟨s, hr, hp⟩
      · exact ⟨t1, by simp [walkFn, herr, hdir, hm, hr]⟩
      · rw [walkFn_matched E fsys patterns t1 d s herr hdir hm hr, hp]
        exact ⟨_, rfl⟩
    obtain ⟨t2, hstep⟩ := hstep
    have hw : walkDir (walkFn E fsys patterns) fsys.walk t = (t2, some e) := by
      rw [hwalk, walkDir_append _ pre (d :: post) t t1 hpre]
      simp [walkDir, hstep]
    have hret : (ParseFS E t fsys patterns).ret = .error e := by
      rw [ParseFS_walk_error E t t2 fsys patterns e hw]
    refine ⟨hret, fun ht => ?_⟩
    subst ht
    exact New_error E fsys patterns e hret

/-- Witness of C5: `a.html` is processed, then `bad.html` does not parse. -/
theorem ParseFS_failure_returns_no_set_witness :
    ((∀ d ∈ exBadFS.walk, selected exEnv ["*.html"] d = true →
      (∀ s b, exBadFS.readFile d.path = .ok s → exEnv.Parse d.path s ≠ .ok b) →
      ∃ e, (ParseFS exEnv none exBadFS ["*.html"]).ret = .error e ∧
        ((none : Option (Template String)) = none → New exEnv exBadFS ["*.html"] = .error e)) ∧
    (∀ (pre post : List DirEntry) (d : DirEntry) (t1 : Option (Template String)) (e : Error),
      exBadFS.walk = pre ++ d :: post →
      walkDir (walkFn exEnv exBadFS ["*.html"]) pre none = (t1, none) →
      d.err = none → d.isDir = false → matchLoop exEnv d.path ["*.html"] = .ok true →
      (exBadFS.readFile d.path = .error e ∨
        ∃ s, exBadFS.readFile d.path = .ok s ∧ exEnv.Parse d.path s = .error e) →
      (ParseFS exEnv none exBadFS ["*.html"]).ret = .error e ∧
        ((none : Option (Template String)) = none →
          New exEnv exBadFS ["*.html"] = .error e))) ∧
    ((ParseFS exEnv none exBadFS ["*.html"]).ret =
        .error (Error.lib "template: bad.html:1: unclosed action") ∧
      ((none : Option (Template String)) = none →
        New exEnv exBadFS ["*.html"] = .error (Error.lib "template: bad.html:1: unclosed action"))) :=
  ⟨ParseFS_failure_returns_no_set exEnv none exBadFS ["*.html"],
    (ParseFS_failure_returns_no_set exEnv none exBadFS ["*.html"]).2
      [⟨".", true, none⟩, ⟨"a.html", false, none⟩] [⟨"c.html", false, none⟩]
      ⟨"bad.html", false, none⟩ (some ⟨"a.html", [("a.html", some "A")], [("a.html", "A")]⟩)
      (Error.lib "template: bad.html:1: unclosed action") rfl rfl rfl rfl rfl
      (Or.inr ⟨exUnclosed, rfl, rfl⟩)⟩

/-- C6, as stated, fails: extending `exLayout` from a source where `a.html`
parses and `bad.html` does not returns an error, and the caller's set has
gained the fragment `a.html` with its body and the name `bad.html`. -/
theorem ParseFS_failure_mutates_counterexample :
    (ParseFS exEnv (some exLayout) exBadFS ["*.html"]).ret =
      .error (Error.lib "template: bad.html:1: unclosed action") ∧
    (ParseFS exEnv (some exLayout) exBadFS ["*.html"]).t = some exLeftover ∧
    exLayout.set.names = ["index.html", "nav"] ∧
    exLeftover.set.names = ["bad.html", "a.html", "index.html", "nav"] ∧
    exLayout.set.get "a.html" = none ∧
    exLeftover.set.get "a.html" = some (some "A") :=
  ⟨rfl, rfl, rfl, rfl, rfl, rfl⟩

/-- C6, amended: when `ParseFS` is given an existing set `t` (registered, and in
step with its parsed trees) and fails, no set is returned, and the caller's `t`
keeps its primary name, every fragment name it held, and as they were the
fragments whose name is neither the path of a selected file nor the name of a
tree the parse of a selected file yields; what was composed before the failure
is not discarded: when the entries before the failing one were processed, the
path of each selected file among them is a fragment name of `t`. -/
theorem ParseFS_failure_keeps {β δ : Type} (E : Env β δ) (t : Template β) (fsys : FS)
    (patterns : List String) (e : Error) (hreg : t.Registered) (hsync : t.Synced)
    (h : (ParseFS E (some t) fsys patterns).ret = .error e) :
    (∀ r, (ParseFS E (some t) fsys patterns).ret ≠ .ok r) ∧
    ∃ t1, (ParseFS E (some t) fsys patterns).t = some t1 ∧ t1.name = t.name ∧
      (∀ n ∈ t.set.names, n ∈ t1.set.names) ∧
      (∀ n, n ∉ matchedPaths E fsys patterns → n ∉ definedNames E fsys patterns →
        t1.set.get n = t.set.get n) ∧
      (∀ (pre post : List DirEntry) (d : DirEntry) (t2 : Option (Template β)),
        fsys.walk = pre ++ d :: post →
        walkDir (walkFn E fsys patterns) pre (some t) = (t2, none) →
        (walkFn E fsys patterns t2 d).2 = some e →
        ∀ d1 ∈ pre, selected E patterns d1 = true → d1.path ∈ t1.set.names) := by
  obtain ⟨t1, h1, hname, hnames⟩ := walkDir_some E fsys patterns fsys.walk t
  refine ⟨fun r hr => ?_, t1, by rw [ParseFS_t, h1], hname, hnames, ?_, ?_⟩
  · rw [h] at hr
    cases hr
  · exact walkDir_some_get E fsys patterns fsys.walk t t1 hsync h1
  · intro pre post d t2 hwalk hpre hfail d1 hd1 hsel
    obtain ⟨t3, h3, _, _⟩ := walkDir_some E fsys patterns pre t
    rw [hpre] at h3
    simp only at h3
    subst h3
    have hin := walkDir_ok_paths E fsys patterns pre t t3 hreg hpre d1 hd1 hsel
    obtain ⟨t4, h4, _, hkeep⟩ := walkFn_some E fsys patterns t3 d
    have hw : walkDir (walkFn E fsys patterns) fsys.walk (some t) = (some t4, some e) := by
      rw [hwalk, walkDir_append _ pre (d :: post) (some t) (some t3) hpre]
      cases hf : walkFn E fsys patterns (some t3) d with
      | mk s1 oe =>
        rw [hf] at h4 hfail
        simp only at h4 hfail
        simp [walkDir, hf, h4, hfail]
    rw [hw] at h1
    simp only [Option.some.injEq] at h1
    subst h1
    exact hkeep _ hin

theorem exLayout_registered : exLayout.Registered := by
  unfold Template.Registered
  decide

theorem exLayout_synced : exLayout.Synced := by
  intro n tree hl
  have hmem := mem_of_lookup_eq_some _ _ _ hl
  simp only [exLayout, List.mem_cons, Prod.mk.injEq, List.not_mem_nil, or_false] at hmem
  rcases hmem with ⟨hn, ht⟩ | ⟨hn, ht⟩ <;> subst hn <;> subst ht <;> rfl

/-- Witness of C6, amended: `exLayout` extended from `exBadFS`. -/
theorem ParseFS_failure_keeps_witness :
    exLayout.Registered ∧
    (ParseFS exEnv (some exLayout) exBadFS ["*.html"]).ret =
      .error (Error.lib "template: bad.html:1: unclosed action") ∧
    (∀ r, (ParseFS exEnv (some exLayout) exBadFS ["*.html"]).ret ≠ .ok r) ∧
    ∃ t1, (ParseFS exEnv (some exLayout) exBadFS ["*.html"]).t = some t1 ∧
      t1.name = exLayout.name ∧
      (∀ n ∈ exLayout.set.names, n ∈ t1.set.names) ∧
      (∀ n, n ∉ matchedPaths exEnv exBadFS ["*.html"] →
        n ∉ definedNames exEnv exBadFS ["*.html"] → t1.set.get n = exLayout.set.get n) ∧
      (∀ (pre post : List DirEntry) (d : DirEntry) (t2 : Option (Template String)),
        exBadFS.walk = pre ++ d :: post →
        walkDir (walkFn exEnv exBadFS ["*.html"]) pre (some exLayout) = (t2, none) →
        (walkFn exEnv exBadFS ["*.html"] t2 d).2 =
          some (Error.lib "template: bad.html:1: unclosed action") →
        ∀ d1 ∈ pre, selected exEnv ["*.html"] d1 = true → d1.path ∈ t1.set.names) :=
  ⟨exLayout_registered, rfl, ParseFS_failure_keeps exEnv exLayout exBadFS ["*.html"]
    (Error.lib "template: bad.html:1: unclosed action") exLayout_registered exLayout_synced rfl⟩

/-! ## The order of the patterns -/

theorem matchesAny_perm {β δ : Type} (E : Env β δ) (ps qs : List String) (path : String)
    (hperm : ps.Perm qs) : matchesAny E ps path = matchesAny E qs path := by
  unfold matchesAny
  rw [Bool.eq_iff_iff, List.any_eq_true, List.any_eq_true]
  constructor
  · rintro ⟨x, hx, h⟩; exact ⟨x, hperm.mem_iff.mp hx, h⟩
  · rintro ⟨x, hx, h⟩; exact ⟨x, hperm.mem_iff.mpr hx, h⟩

/-- C10, as stated, fails: `a.html` matches `*.html`, so with the patterns
`*.html`, `[` the malformed `[` is never tried and composition succeeds, while
with `[`, `*.html` the pattern error aborts it. -/
theorem ParseFS_pattern_order_counterexample :
    List.Perm ["*.html", "["] ["[", "*.html"] ∧
    (ParseFS exEnv none exIndexFS ["*.html", "["]).ret =
      .ok ⟨"a.html", [("index.html", some "NEW"), ("a.html", some "A")],
        [("index.html", "NEW"), ("a.html", "A")]⟩ ∧
    (ParseFS exEnv none exIndexFS ["[", "*.html"]).ret =
      .error (Error.lib "syntax error in pattern") :=
  ⟨List.Perm.swap _ _ _, rfl, rfl⟩

/-- C10, amended: for a well-formed pattern list (no pattern makes
`filepath.Match` report an error), `ParseFS` yields the same result, and leaves
the caller's set in the same state, on every permutation of the list. -/
theorem ParseFS_perm {β δ : Type} (E : Env β δ) (t : Option (Template β)) (fsys : FS)
    (ps qs : List String) (hwf : WellFormed E ps) (hperm : ps.Perm qs) :
    ParseFS E t fsys ps = ParseFS E t fsys qs := by
  have hwfq : WellFormed E qs := fun pattern hp name => hwf pattern (hperm.mem_iff.mpr hp) name
  have hfn : walkFn E fsys ps = walkFn E fsys qs := by
    funext t0 d
    unfold walkFn
    rw [matchLoop_wellFormed E d.path ps (fun pattern hp => hwf pattern hp _),
      matchLoop_wellFormed E d.path qs (fun pattern hp => hwfq pattern hp _),
      matchesAny_perm E ps qs d.path hperm]
  unfold ParseFS
  rw [hfn]

/-- Witness of C10, amended: the patterns `*.html`, `*.xml` in both orders. -/
theorem ParseFS_perm_witness :
    WellFormed exEnv ["*.html", "*.xml"] ∧ List.Perm ["*.html", "*.xml"] ["*.xml", "*.html"] ∧
    ParseFS exEnv none exFS ["*.html", "*.xml"] = ParseFS exEnv none exFS ["*.xml", "*.html"] := by
  have hwf : WellFormed exEnv ["*.html", "*.xml"] := by
    intro pattern hp name
    simp only [List.mem_cons, List.mem_singleton, List.not_mem_nil, or_false] at hp
    rcases hp with h | h <;> subst h
    · exact ⟨_, rfl⟩
    · exact ⟨_, rfl⟩
  exact ⟨hwf, List.Perm.swap _ _ _, ParseFS_perm exEnv none exFS _ _ hwf (List.Perm.swap _ _ _)⟩

/-! ## Rendering: `ExecuteTemplate` -/

/-- C7: `ExecuteTemplate` never changes the engine's layout: whatever the
engine, the sink, the template path and the data, and whether the call fails
or not, the engine after the call is the engine before it, so the layout holds
the same fragment names and bodies and its names have gained nothing. -/
theorem ExecuteTemplate_layout_unchanged {β δ : Type} (E : Env β δ) (e : Engine β)
    (w : String) (templatePath : String) (data : δ) :
    (ExecuteTemplate E e w templatePath data).engine = e ∧
    (ExecuteTemplate E e w templatePath data).engine.Layout = e.Layout ∧
    (ExecuteTemplate E e w templatePath data).engine.layout.map (fun l => l.set.names) =
      e.layout.map (fun l => l.set.names) := by
  have h : (ExecuteTemplate E e w templatePath data).engine = e := by
    unfold ExecuteTemplate
    cases hl : e.layout with
    | none => rfl
    | some l =>
      simp only [Template.Clone]
      cases E.ReadFile templatePath with
      | error err => rfl
      | ok s =>
        simp only
        cases Template.Parse E
          (Template.New ⟨l.name, l.set, l.text⟩ templatePath).1 s with
        | error err => rfl
        | ok tmpl1 => rfl
  exact ⟨h, by rw [h], by rw [h]⟩

/-- C8, as stated, fails: the page `navpage.html` defines the template `nav`
with the body `N2`, and its text is `P` followed by an invocation of `nav`; the
layout holds a fragment `nav` with the body `N`.  In the set the claim
describes, the layout with the body of the page inserted under its path, `nav`
resolves to the layout's `N` and the page renders as `PN`; `ExecuteTemplate`
writes `PN2`, since the page's `nav` has replaced the layout's in the clone. -/
theorem ExecuteTemplate_define_counterexample :
    exEnv.ReadFile "navpage.html" = .ok (exDefineNav ++ "P" ++ exInvokeNav) ∧
    exEnv.Parse "navpage.html" (exDefineNav ++ "P" ++ exInvokeNav) =
      .ok [("navpage.html", "P" ++ exInvokeNav), ("nav", "N2")] ∧
    exLayout.Lookup "nav" = some "N" ∧
    exEnv.Execute
      (fun q => if q = "navpage.html" then some ("P" ++ exInvokeNav) else exLayout.Lookup q)
      "navpage.html" () = ("PN", none) ∧
    (ExecuteTemplate exEnv ⟨some exLayout⟩ "" "navpage.html" ()).sink = "PN2" ∧
    (ExecuteTemplate exEnv ⟨some exLayout⟩ "" "navpage.html" ()).err = none :=
  ⟨rfl, rfl, rfl, rfl, rfl, rfl⟩

/-- C8, amended: for an engine whose layout `l` is set and in step with its
parsed trees, and a readable template path `p`, other than the primary name of
`l`, whose contents parse, `ExecuteTemplate` runs `t.ExecuteTemplate` for `p` in
`renderSet`, the clone of `l` where `p` is registered and every tree the parse
yields is added: when `p` resolves there, the sink gains exactly what executing
`p` against that set writes, and the error of that execution is returned.  In
that set a tree the parse yields that is not empty is the body of its name, and
a name other than `p` that the parse does not yield resolves as in the
layout. -/
theorem ExecuteTemplate_renders {β δ : Type} (E : Env β δ) (e : Engine β) (l : Template β)
    (w : String) (p s : String) (trees : List (String × β)) (data : δ)
    (hl : e.layout = some l) (hr : E.ReadFile p = .ok s) (hp : E.Parse p s = .ok trees)
    (hne : p ≠ l.name) (hsync : l.Synced) :
    ExecuteTemplate E e w p data =
      ⟨e, ((renderSet E l p trees).ExecuteTemplate E w p data).1,
        ((renderSet E l p trees).ExecuteTemplate E w p data).2⟩ ∧
    (∀ tree, (renderSet E l p trees).Lookup p = some tree →
      ExecuteTemplate E e w p data =
        ⟨e, w ++ (E.Execute (renderSet E l p trees).Lookup p data).1,
          (E.Execute (renderSet E l p trees).Lookup p data).2⟩) ∧
    (∀ q tree, (q, tree) ∈ trees → (trees.map Prod.fst).Nodup → E.IsEmptyTree tree = false →
      (renderSet E l p trees).Lookup q = some tree) ∧
    (∀ q, q ≠ p → q ∉ trees.map Prod.fst → (renderSet E l p trees).Lookup q = l.Lookup q) := by
  have hrun : ExecuteTemplate E e w p data =
      ⟨e, ((renderSet E l p trees).ExecuteTemplate E w p data).1,
        ((renderSet E l p trees).ExecuteTemplate E w p data).2⟩ := by
    unfold ExecuteTemplate
    simp only [hl, Template.Clone, hr, Template.New, Template.Parse, hp, if_neg hne, renderSet]
  refine ⟨hrun, fun tree ht => ?_, fun q tree hmem hnd hempty => ?_, fun q hq hnot => ?_⟩
  · rw [hrun]
    have hget : (renderSet E l p trees).set.get p = some (some tree) := by
      unfold Template.Lookup at ht
      cases hg : (renderSet E l p trees).set.get p with
      | none => rw [hg] at ht; cases ht
      | some ob =>
        cases ob with
        | none => rw [hg] at ht; cases ht
        | some b =>
          rw [hg] at ht
          simp only [Option.some.injEq] at ht
          rw [ht]
    simp only [Template.ExecuteTemplate, hget]
  · simp only [Template.Lookup, renderSet]
    rw [get_syncSet, lookup_addTrees_mem E l.text trees q tree hnd hmem hempty]
  · simp only [Template.Lookup, renderSet]
    rw [get_syncSet, lookup_addTrees_not_mem E l.text trees q hnot]
    cases hlk : List.lookup q l.text with
    | none =>
      simp only
      rw [get_insert_ne _ _ _ _ hq]
    | some tree =>
      simp only
      rw [hsync q tree hlk]

/-- Witness of C8, amended: the layout `exLayout` and the page `navpage.html`,
which defines `nav` and invokes it. -/
theorem ExecuteTemplate_renders_witness :
    ExecuteTemplate exEnv ⟨some exLayout⟩ "" "navpage.html" () =
      ⟨⟨some exLayout⟩, "PN2", none⟩ ∧
    (ExecuteTemplate exEnv ⟨some exLayout⟩ "" "navpage.html" () =
      ⟨⟨some exLayout⟩,
        ((renderSet exEnv exLayout "navpage.html"
          [("navpage.html", "P" ++ exInvokeNav), ("nav", "N2")]).ExecuteTemplate
            exEnv "" "navpage.html" ()).1,
        ((renderSet exEnv exLayout "navpage.html"
          [("navpage.html", "P" ++ exInvokeNav), ("nav", "N2")]).ExecuteTemplate
            exEnv "" "navpage.html" ()).2⟩ ∧
    (∀ tree, (renderSet exEnv exLayout "navpage.html"
        [("navpage.html", "P" ++ exInvokeNav), ("nav", "N2")]).Lookup "navpage.html" =
          some tree →
      ExecuteTemplate exEnv ⟨some exLayout⟩ "" "navpage.html" () =
        ⟨⟨some exLayout⟩,
          "" ++ (exEnv.Execute (renderSet exEnv exLayout "navpage.html"
            [("navpage.html", "P" ++ exInvokeNav), ("nav", "N2")]).Lookup "navpage.html" ()).1,
          (exEnv.Execute (renderSet exEnv exLayout "navpage.html"
            [("navpage.html", "P" ++ exInvokeNav), ("nav", "N2")]).Lookup "navpage.html" ()).2⟩) ∧
    (∀ q tree, (q, tree) ∈ [("navpage.html", "P" ++ exInvokeNav), ("nav", "N2")] →
      (([("navpage.html", "P" ++ exInvokeNav), ("nav", "N2")] :
        List (String × String)).map Prod.fst).Nodup →
      exEnv.IsEmptyTree tree = false →
      (renderSet exEnv exLayout "navpage.html"
        [("navpage.html", "P" ++ exInvokeNav), ("nav", "N2")]).Lookup q = some tree) ∧
    (∀ q, q ≠ "navpage.html" →
      q ∉ ([("navpage.html", "P" ++ exInvokeNav), ("nav", "N2")] :
        List (String × String)).map Prod.fst →
      (renderSet exEnv exLayout "navpage.html"
        [("navpage.html", "P" ++ exInvokeNav), ("nav", "N2")]).Lookup q = exLayout.Lookup q)) :=
  ⟨rfl, ExecuteTemplate_renders exEnv ⟨some exLayout⟩ exLayout "" "navpage.html"
    (exDefineNav ++ "P" ++ exInvokeNav) [("navpage.html", "P" ++ exInvokeNav), ("nav", "N2")] ()
    rfl rfl rfl (by decide) exLayout_synced⟩

/-- When the template path is the primary name of the layout, `t.New` detaches
the clone from the set the page is parsed into, and `ExecuteTemplate` returns an
error without writing anything. -/
theorem ExecuteTemplate_primary_name_incomplete :
    exEnv.ReadFile "index.html" = .ok "NEW" ∧
    ExecuteTemplate exEnv ⟨some exLayout⟩ "" "index.html" () =
      ⟨⟨some exLayout⟩, "",
        some (Error.lib "html/template: index.html is an incomplete template")⟩ :=
  ⟨rfl, rfl⟩

/-- C9: `ExecuteTemplate` returns an error and leaves the sink as it was in
both failures that precede execution: with no layout it returns the
empty-layout error for every template path and data, and with a layout and a
template path that cannot be read it returns the read error. -/
theorem ExecuteTemplate_early_errors {β δ : Type} (E : Env β δ) (e : Engine β) (w : String)
    (templatePath : String) (data : δ) :
    (e.layout = none →
      ExecuteTemplate E e w templatePath data = ⟨e, w, some Error.emptyLayout⟩) ∧
    (∀ l err, e.layout = some l → E.ReadFile templatePath = .error err →
      ExecuteTemplate E e w templatePath data = ⟨e, w, some err⟩) := by
  constructor
  · intro hl
    simp [ExecuteTemplate, hl]
  · intro l err hl hr
    simp [ExecuteTemplate, hl, Template.Clone, hr]

/-- Witness of C9: no layout, and a layout with the missing file `nope.html`. -/
theorem ExecuteTemplate_early_errors_witness :
    ExecuteTemplate exEnv (⟨none⟩ : Engine String) "out" "page" () =
      ⟨⟨none⟩, "out", some Error.emptyLayout⟩ ∧
    ExecuteTemplate exEnv ⟨some exLayout⟩ "out" "nope.html" () =
      ⟨⟨some exLayout⟩, "out", some (Error.lib "open nope.html: file does not exist")⟩ :=
  ⟨(ExecuteTemplate_early_errors exEnv ⟨none⟩ "out" "page" ()).1 rfl,
    (ExecuteTemplate_early_errors exEnv ⟨some exLayout⟩ "out" "nope.html" ()).2 exLayout
      (Error.lib "open nope.html: file does not exist") rfl rfl⟩

end TemplateEngine
